import Mathlib

/-!
Verification of the itinerary-planner application (`src/app.py`).

The program is a small CRUD layer over a SQLite table `places`
(columns `id, day, ord, name, lat, lng, memo`) together with a map
renderer.  We embed the table as a list of `Place` records kept in
insertion order plus the AUTOINCREMENT counter, and translate each
Python function (`fetch_places`, `next_ord`, `add_place`,
`delete_place`, `move_place`, `gmaps_transit_link`, `build_map`) into
a Lean function over that state.  Coordinates are modelled as rational
numbers; SQL `ORDER BY ord ASC` is modelled by an insertion sort on
the `ord` field.
-/

/-- A row of the `places` table. -/
structure Place where
  id : Nat
  day : Int
  ord : Nat
  name : String
  lat : Rat
  lng : Rat
  memo : String
deriving Repr, DecidableEq

/-- The database state: rows in insertion order plus the AUTOINCREMENT
counter for fresh ids. -/
structure Store where
  places : List Place
  nextId : Nat
deriving Repr, DecidableEq

/-- A freshly created database (after `init_db`). -/
def emptyStore : Store := ⟨[], 1⟩

/-- The comparison used by `ORDER BY ord ASC`. -/
def ordLE (a b : Place) : Prop := a.ord ≤ b.ord

instance : DecidableRel ordLE := fun a b => Nat.decLe a.ord b.ord

instance : IsTotal Place ordLE := ⟨fun a b => Nat.le_total a.ord b.ord⟩

instance : IsTrans Place ordLE := ⟨fun _ _ _ => Nat.le_trans⟩

/-- The sort `SELECT ... ORDER BY ord ASC` performs on a list of rows. -/
def sortByOrd (l : List Place) : List Place := l.insertionSort ordLE

/-- Python `fetch_places(day)`: the day's rows sorted by `ord`. -/
def fetch_places (s : Store) (day : Int) : List Place :=
  sortByOrd (s.places.filter (fun p => p.day = day))

/-- The query `SELECT COALESCE(MAX(ord), 0) FROM places WHERE day=?` plus one:
the Python `next_ord`. -/
def next_ord (s : Store) (day : Int) : Nat :=
  ((s.places.filter (fun p => p.day = day)).map (fun p => p.ord)).foldr max 0 + 1

/-- Python `add_place(day, name, lat, lng, memo)`: insert one row with the
next `ord` and a fresh id. -/
def add_place (s : Store) (day : Int) (name : String) (lat lng : Rat)
    (memo : String) : Store :=
  { places := s.places ++ [⟨s.nextId, day, next_ord s day, name, lat, lng, memo⟩],
    nextId := s.nextId + 1 }

/-- One `UPDATE places SET ord=? WHERE id=?` statement. -/
def stepUpd (p : Place) (u : Nat × Nat) : Place :=
  if p.id = u.2 then { p with ord := u.1 } else p

/-- Run a list of `(ord, id)` UPDATE statements over the table, in order. -/
def applyUpdates (ps : List Place) (upds : List (Nat × Nat)) : List Place :=
  upds.foldl (fun acc u => acc.map (fun p => stepUpd p u)) ps

/-- Python `enumerate(rows, start=n)`. -/
def enumFrom {α : Type} : Nat → List α → List (Nat × α)
  | _, [] => []
  | n, a :: t => (n, a) :: enumFrom (n + 1) t

/-- Python `delete_place(place_id, day)`: delete the row with the given id
(from whatever day owns it), then renumber the given day's rows to
`1..N` in `ord` order. -/
def delete_place (s : Store) (place_id : Nat) (day : Int) : Store :=
  let remaining := s.places.filter (fun p => p.id ≠ place_id)
  let rowIds := (sortByOrd (remaining.filter (fun p => p.day = day))).map (fun p => p.id)
  { places := applyUpdates remaining (enumFrom 1 rowIds), nextId := s.nextId }

/-- Swap the elements at positions `i` and `i+1` (no-op out of range). -/
def swapAdj {α : Type} : List α → Nat → List α
  | a :: b :: t, 0 => b :: a :: t
  | a :: t, n + 1 => a :: swapAdj t n
  | l, _ => l

/-- Python `move_place(day, place_id, direction)`: locate the row in the day's
ordered list, swap it with its neighbour when the direction permits,
then renumber the day's rows to `1..N` by the swapped order.  Any other
case returns without touching the table. -/
def move_place (s : Store) (day : Int) (place_id : Nat) (direction : String) : Store :=
  match ((fetch_places s day).map (fun p => (p.id, p.ord))).findIdx?
      (fun r => r.1 = place_id) with
  | none => s
  | some idx =>
    if direction = "up" ∧ 0 < idx then
      { places := applyUpdates s.places
          (enumFrom 1 ((swapAdj ((fetch_places s day).map (fun p => (p.id, p.ord)))
            (idx - 1)).map (fun r => r.1))),
        nextId := s.nextId }
    else if direction = "down" ∧
        idx < ((fetch_places s day).map (fun p => (p.id, p.ord))).length - 1 then
      { places := applyUpdates s.places
          (enumFrom 1 ((swapAdj ((fetch_places s day).map (fun p => (p.id, p.ord)))
            idx).map (fun r => r.1))),
        nextId := s.nextId }
    else s

/-- Python's `str.strip()`: drop leading and trailing whitespace,
modelled on the character list so that it evaluates. -/
def strip (s : String) : String :=
  ⟨((s.data.dropWhile (fun c => c.isWhitespace)).reverse.dropWhile
      (fun c => c.isWhitespace)).reverse⟩

/-- Result of submitting the add-place form. -/
inductive FormResult where
  | validationError
  | ok (s : Store)
deriving Repr, DecidableEq

/-- The `add_place_form` submit handler: reject a name that is empty
after trimming, otherwise insert the trimmed name and memo. -/
def add_place_form (s : Store) (day : Int) (name : String) (lat lng : Rat)
    (memo : String) : FormResult :=
  if strip name = "" then FormResult.validationError
  else FormResult.ok (add_place s day (strip name) lat lng (strip memo))

/-- Python `gmaps_transit_link`: the transit deep-link URL for one leg. -/
def gmaps_transit_link (origin_lat origin_lng dest_lat dest_lng : Rat) : String :=
  "https://www.google.com/maps/dir/?api=1"
    ++ "&origin=" ++ toString origin_lat ++ "," ++ toString origin_lng
    ++ "&destination=" ++ toString dest_lat ++ "," ++ toString dest_lng
    ++ "&travelmode=transit"

/-- A `folium.Marker` as far as the logic is concerned. -/
structure Marker where
  location : Rat × Rat
  tooltip : String
  memo : String
deriving Repr, DecidableEq

/-- A `folium.PolyLine`; segment lines carry the transit link of their popup. -/
structure Polyline where
  coords : List (Rat × Rat)
  tooltip : String
  link : Option String
deriving Repr, DecidableEq

/-- The map description `build_map` produces. -/
structure MapDesc where
  center : Rat × Rat
  zoom : Nat
  markers : List Marker
  polylines : List Polyline
deriving Repr, DecidableEq

/-- The per-leg segment polylines of `build_map`, one for each
consecutive pair of coordinates. -/
def segLines (coords : List (Rat × Rat)) : List Polyline :=
  (List.range (coords.length - 1)).map (fun i =>
    let a := coords.getD i (0, 0)
    let b := coords.getD (i + 1) (0, 0)
    { coords := [a, b],
      tooltip := "구간 " ++ toString (i + 1) ++ " → " ++ toString (i + 2) ++ " (클릭)",
      link := some (gmaps_transit_link a.1 a.2 b.1 b.2) })

/-- Python `build_map(day, places)`: centre on the coordinate mean (fallback
centre and lower zoom when empty), one marker per place, and when at
least two places exist a full route line plus one clickable segment
line per leg. -/
def build_map (day : Int) (places : List Place) : MapDesc :=
  let coords := places.map (fun p => (p.lat, p.lng))
  { center :=
      if places ≠ [] then
        ((places.map (fun p => p.lat)).sum / places.length,
         (places.map (fun p => p.lng)).sum / places.length)
      else (37.5665, 126.9780),
    zoom := if places ≠ [] then 13 else 12,
    markers := places.map (fun p =>
      { location := (p.lat, p.lng),
        tooltip := toString p.ord ++ ". " ++ p.name,
        memo := p.memo }),
    polylines :=
      if 2 ≤ coords.length then
        { coords := coords, tooltip := "전체 동선", link := none } :: segLines coords
      else [] }

/-- The transit links a rendered map carries, in segment order. -/
def legLinks (m : MapDesc) : List String :=
  m.polylines.filterMap (fun pl => pl.link)

/-- The options of the UI day selector: `list(range(1, 14))`. -/
def day_options : List Int := (List.range 13).map (fun i => (i : Int) + 1)

/-- An operation against the store, as issued by the UI handlers. -/
inductive Op where
  | add (day : Int) (name : String) (lat lng : Rat) (memo : String)
  | del (day : Int) (place_id : Nat)
  | move (day : Int) (place_id : Nat) (direction : String)
deriving Repr, DecidableEq

/-- Apply one operation to the store. -/
def applyOp (s : Store) : Op → Store
  | Op.add d n la ln m => add_place s d n la ln m
  | Op.del d pid => delete_place s pid d
  | Op.move d pid dir => move_place s d pid dir

/-- Run a sequence of operations from the empty store. -/
def runOps (ops : List Op) : Store := ops.foldl applyOp emptyStore

/-- The contiguous-order invariant: for every day, the `ord` values of
that day's rows are a permutation of `1..N`. -/
def OrdInv (s : Store) : Prop :=
  ∀ d : Int,
    List.Perm ((s.places.filter (fun p => p.day = d)).map (fun p => p.ord))
      (List.range' 1 (s.places.filter (fun p => p.day = d)).length)

/-- Well-formedness the SQLite schema guarantees: ids are unique and
below the AUTOINCREMENT counter. -/
def WF (s : Store) : Prop :=
  (s.places.map (fun p => p.id)).Nodup ∧ ∀ p ∈ s.places, p.id < s.nextId

/-- A delete operation is day-scoped when the id it names does not
belong to a different day than its day argument. -/
def dayScoped (s : Store) : Op → Prop
  | Op.del d pid => ∀ p ∈ s.places, p.id = pid → p.day = d
  | _ => True

/-- Reassign `ord` values `1..N` to a list of rows by position. -/
def renumberList (l : List Place) : List Place :=
  (enumFrom 1 l).map (fun x => { x.2 with ord := x.1 })

/-- Strict `ord` comparison, used for sortedness-uniqueness arguments. -/
def ordLT (a b : Place) : Prop := a.ord < b.ord

instance : IsAntisymm Place ordLT :=
  ⟨fun _ _ h1 h2 => absurd h2 (Nat.lt_asymm h1)⟩

/-- The row `add_place` inserts. -/
def newPlace (s : Store) (day : Int) (name : String) (lat lng : Rat)
    (memo : String) : Place :=
  ⟨s.nextId, day, next_ord s day, name, lat, lng, memo⟩


/-! ### Infrastructure lemmas -/

theorem stepUpd_id (p : Place) (u : Nat × Nat) : (stepUpd p u).id = p.id := by
  unfold stepUpd; split <;> rfl

theorem stepUpd_day (p : Place) (u : Nat × Nat) : (stepUpd p u).day = p.day := by
  unfold stepUpd; split <;> rfl

theorem foldl_stepUpd_id (upds : List (Nat × Nat)) (p : Place) :
    (upds.foldl stepUpd p).id = p.id := by
  induction upds generalizing p with
  | nil => rfl
  | cons u us ih => rw [List.foldl_cons, ih, stepUpd_id]

theorem foldl_stepUpd_day (upds : List (Nat × Nat)) (p : Place) :
    (upds.foldl stepUpd p).day = p.day := by
  induction upds generalizing p with
  | nil => rfl
  | cons u us ih => rw [List.foldl_cons, ih, stepUpd_day]

theorem applyUpdates_eq_map (ps : List Place) (upds : List (Nat × Nat)) :
    applyUpdates ps upds = ps.map (fun p => upds.foldl stepUpd p) := by
  induction upds generalizing ps with
  | nil => simp [applyUpdates]
  | cons u us ih =>
      unfold applyUpdates at ih ⊢
      rw [List.foldl_cons, ih, List.map_map]
      rfl

theorem foldl_stepUpd_of_not_mem (upds : List (Nat × Nat)) (p : Place)
    (h : ∀ u ∈ upds, u.2 ≠ p.id) : upds.foldl stepUpd p = p := by
  induction upds with
  | nil => rfl
  | cons u us ih =>
      rw [List.foldl_cons]
      have hu : stepUpd p u = p := by
        unfold stepUpd
        rw [if_neg]
        intro hc
        exact h u (List.mem_cons_self u us) hc.symm
      rw [hu]
      exact ih (fun v hv => h v (List.mem_cons_of_mem u hv))

theorem enumFrom_snd_mem {α : Type} (n : Nat) (l : List α) (u : Nat × α)
    (h : u ∈ enumFrom n l) : u.2 ∈ l := by
  induction l generalizing n with
  | nil => cases h
  | cons a t ih =>
      rcases List.mem_cons.mp h with h1 | h1
      · subst h1; exact List.mem_cons_self a t
      · exact List.mem_cons_of_mem a (ih (n + 1) h1)

theorem foldl_stepUpd_enumFrom_not_mem (n : Nat) (rowIds : List Nat) (p : Place)
    (h : p.id ∉ rowIds) : (enumFrom n rowIds).foldl stepUpd p = p := by
  apply foldl_stepUpd_of_not_mem
  intro u hu hc
  exact h (hc ▸ enumFrom_snd_mem n rowIds u hu)

theorem map_foldl_stepUpd (q : List Place) (n : Nat)
    (h : (q.map (fun p => p.id)).Nodup) :
    q.map (fun p => (enumFrom n (q.map (fun p => p.id))).foldl stepUpd p) =
      (enumFrom n q).map (fun x => { x.2 with ord := x.1 }) := by
  induction q generalizing n with
  | nil => rfl
  | cons a t ih =>
      have hnd := h
      rw [List.map_cons, List.nodup_cons] at hnd
      obtain ⟨ha, ht⟩ := hnd
      have hstep : enumFrom n ((a :: t).map (fun p => p.id)) =
          (n, a.id) :: enumFrom (n + 1) (t.map (fun p => p.id)) := rfl
      rw [List.map_cons, hstep]
      have hhead : ((n, a.id) :: enumFrom (n + 1) (t.map (fun p => p.id))).foldl stepUpd a
          = { a with ord := n } := by
        rw [List.foldl_cons]
        have h1 : stepUpd a (n, a.id) = { a with ord := n } := by
          unfold stepUpd; rw [if_pos rfl]
        rw [h1]
        exact foldl_stepUpd_enumFrom_not_mem (n + 1) (t.map (fun p => p.id))
          { a with ord := n } ha
      have htail : t.map (fun p =>
            ((n, a.id) :: enumFrom (n + 1) (t.map (fun p => p.id))).foldl stepUpd p) =
          t.map (fun p => (enumFrom (n + 1) (t.map (fun p => p.id))).foldl stepUpd p) := by
        apply List.map_congr_left
        intro p hp
        rw [List.foldl_cons]
        have hne : stepUpd p (n, a.id) = p := by
          unfold stepUpd
          rw [if_neg]
          intro hc
          have hc' : p.id = a.id := hc
          apply ha
          rw [← hc']
          exact List.mem_map_of_mem (fun p => p.id) hp
        rw [hne]
      rw [hhead, htail, ih (n + 1) ht]
      rfl

theorem enumFrom_map_snd_comp {α β : Type} (f : α → β) (n : Nat) (l : List α) :
    (enumFrom n l).map (fun x => f x.2) = l.map f := by
  induction l generalizing n with
  | nil => rfl
  | cons a t ih => simp [enumFrom, ih]

theorem renumberList_map_id (l : List Place) :
    (renumberList l).map (fun p => p.id) = l.map (fun p => p.id) := by
  unfold renumberList
  rw [List.map_map]
  exact enumFrom_map_snd_comp (fun p => p.id) 1 l

theorem enumFrom_map_ord (n : Nat) (l : List Place) :
    ((enumFrom n l).map (fun x => { x.2 with ord := x.1 })).map (fun p => p.ord) =
      List.range' n l.length := by
  induction l generalizing n with
  | nil => rfl
  | cons a t ih => simp [enumFrom, List.range', ih]

theorem renumberList_map_ord (l : List Place) :
    (renumberList l).map (fun p => p.ord) = List.range' 1 l.length :=
  enumFrom_map_ord 1 l

theorem enumFrom_length {α : Type} (n : Nat) (l : List α) :
    (enumFrom n l).length = l.length := by
  induction l generalizing n with
  | nil => rfl
  | cons a t ih => simp [enumFrom, ih]

theorem renumberList_length (l : List Place) :
    (renumberList l).length = l.length := by
  unfold renumberList
  rw [List.length_map, enumFrom_length]

theorem enumFrom_sorted_lt (n : Nat) (l : List Place) :
    List.Pairwise ordLT ((enumFrom n l).map (fun x => { x.2 with ord := x.1 })) := by
  induction l generalizing n with
  | nil => exact List.Pairwise.nil
  | cons a t ih =>
      refine List.pairwise_cons.mpr ⟨?_, ih (n + 1)⟩
      intro p hp
      have hmem : p.ord ∈ ((enumFrom (n + 1) t).map
          (fun x => { x.2 with ord := x.1 })).map (fun p => p.ord) :=
        List.mem_map_of_mem (fun p => p.ord) hp
      rw [enumFrom_map_ord] at hmem
      have := List.mem_range'.mp hmem
      obtain ⟨i, _, hi⟩ := this
      show n < p.ord
      omega

theorem renumberList_sorted_lt (l : List Place) :
    List.Pairwise ordLT (renumberList l) :=
  enumFrom_sorted_lt 1 l

theorem sortByOrd_perm (l : List Place) : List.Perm (sortByOrd l) l :=
  List.perm_insertionSort ordLE l

theorem sortByOrd_sorted (l : List Place) : List.Sorted ordLE (sortByOrd l) :=
  List.sorted_insertionSort ordLE l

theorem sorted_lt_of_sorted_le_nodup (l : List Place)
    (hs : List.Sorted ordLE l) (hn : (l.map (fun p => p.ord)).Nodup) :
    List.Sorted ordLT l := by
  have hne : List.Pairwise (fun a b : Place => a.ord ≠ b.ord) l :=
    List.pairwise_map.mp hn
  have := List.Pairwise.and hs hne
  exact this.imp (fun h => Nat.lt_of_le_of_ne h.1 h.2)

/-- The filter of a day predicate commutes with running the UPDATE
statements, because an UPDATE never changes the `day` column. -/
theorem applyUpdates_filter_day (ps : List Place) (upds : List (Nat × Nat)) (c : Int) :
    (applyUpdates ps upds).filter (fun p => p.day = c) =
      (ps.filter (fun p => p.day = c)).map (fun p => upds.foldl stepUpd p) := by
  rw [applyUpdates_eq_map, List.filter_map]
  congr 1
  apply List.filter_congr
  intro p _
  simp only [Function.comp_apply, foldl_stepUpd_day]

theorem applyUpdates_map_id (ps : List Place) (upds : List (Nat × Nat)) :
    (applyUpdates ps upds).map (fun p => p.id) = ps.map (fun p => p.id) := by
  rw [applyUpdates_eq_map, List.map_map]
  apply List.map_congr_left
  intro p _
  exact foldl_stepUpd_id upds p

/-- Master lemma for the renumbering step shared by `delete_place` and
`move_place`: issuing `SET ord=i WHERE id=pid` for `(i, pid)` running
over `enumerate(q, start=1)`, where `q` is some arrangement of day
`d`'s rows, leaves every other day's rows untouched and turns day `d`'s
ordered list into `q` renumbered `1..N`. -/
theorem renumber_spec (ps : List Place) (d : Int) (q : List Place)
    (hids : (ps.map (fun p => p.id)).Nodup)
    (hq : List.Perm q (ps.filter (fun p => p.day = d))) :
    sortByOrd ((applyUpdates ps (enumFrom 1 (q.map (fun p => p.id)))).filter
        (fun p => p.day = d)) = renumberList q ∧
    ∀ d' : Int, d' ≠ d →
      (applyUpdates ps (enumFrom 1 (q.map (fun p => p.id)))).filter
          (fun p => p.day = d') = ps.filter (fun p => p.day = d') := by
  have hqids : (q.map (fun p => p.id)).Nodup := by
    have h1 : List.Perm (q.map (fun p => p.id))
        ((ps.filter (fun p => p.day = d)).map (fun p => p.id)) :=
      hq.map (fun p => p.id)
    have h2 : ((ps.filter (fun p => p.day = d)).map (fun p => p.id)).Nodup :=
      List.Nodup.sublist ((List.filter_sublist ps).map (fun p => p.id)) hids
    exact h1.symm.nodup h2
  have hM1 : q.map (fun p => (enumFrom 1 (q.map (fun p => p.id))).foldl stepUpd p) =
      renumberList q := map_foldl_stepUpd q 1 hqids
  constructor
  · have hfilter := applyUpdates_filter_day ps (enumFrom 1 (q.map (fun p => p.id))) d
    rw [hfilter]
    have hXperm : List.Perm
        ((ps.filter (fun p => p.day = d)).map
          (fun p => (enumFrom 1 (q.map (fun p => p.id))).foldl stepUpd p))
        (renumberList q) := by
      rw [← hM1]
      exact (hq.symm).map _
    have hperm2 : List.Perm
        (sortByOrd ((ps.filter (fun p => p.day = d)).map
          (fun p => (enumFrom 1 (q.map (fun p => p.id))).foldl stepUpd p)))
        (renumberList q) :=
      (sortByOrd_perm _).trans hXperm
    have hsortedR : List.Sorted ordLT (renumberList q) := renumberList_sorted_lt q
    have hrange : ((renumberList q).map (fun p => p.ord)).Nodup := by
      rw [renumberList_map_ord]
      exact List.nodup_range' 1 q.length
    have hnod : ((sortByOrd ((ps.filter (fun p => p.day = d)).map
        (fun p => (enumFrom 1 (q.map (fun p => p.id))).foldl stepUpd p))).map
          (fun p => p.ord)).Nodup :=
      (hperm2.map (fun p => p.ord)).symm.nodup hrange
    have hsortedL : List.Sorted ordLT
        (sortByOrd ((ps.filter (fun p => p.day = d)).map
          (fun p => (enumFrom 1 (q.map (fun p => p.id))).foldl stepUpd p))) :=
      sorted_lt_of_sorted_le_nodup _ (sortByOrd_sorted _) hnod
    exact List.eq_of_perm_of_sorted hperm2 hsortedL hsortedR
  · intro d' hd'
    rw [applyUpdates_filter_day]
    have hfix : ∀ p ∈ ps.filter (fun p => p.day = d'),
        (enumFrom 1 (q.map (fun p => p.id))).foldl stepUpd p = p := by
      intro p hp
      have hpday : p.day = d' := by
        have := (List.mem_filter.mp hp).2
        exact of_decide_eq_true this
      have hpmem : p ∈ ps := (List.mem_filter.mp hp).1
      apply foldl_stepUpd_enumFrom_not_mem
      intro hmem
      rcases List.mem_map.mp hmem with ⟨p', hp'q, hp'id⟩
      have hp'filter : p' ∈ ps.filter (fun p => p.day = d) := hq.subset hp'q
      have hp'mem : p' ∈ ps := (List.mem_filter.mp hp'filter).1
      have hp'day : p'.day = d := of_decide_eq_true (List.mem_filter.mp hp'filter).2
      have : p' = p := List.inj_on_of_nodup_map hids hp'mem hpmem hp'id
      rw [← this, hp'day] at hpday
      exact hd' hpday.symm
    calc (ps.filter (fun p => p.day = d')).map
          (fun p => (enumFrom 1 (q.map (fun p => p.id))).foldl stepUpd p)
        = (ps.filter (fun p => p.day = d')).map id := List.map_congr_left hfix
      _ = ps.filter (fun p => p.day = d') := List.map_id _

theorem swapAdj_perm {α : Type} (l : List α) (n : Nat) :
    List.Perm (swapAdj l n) l := by
  induction l generalizing n with
  | nil => exact List.Perm.refl _
  | cons a t ih =>
      cases n with
      | zero =>
          cases t with
          | nil => exact List.Perm.refl _
          | cons b t' => exact List.Perm.swap a b t'
      | succ m =>
          cases t with
          | nil => exact List.Perm.refl _
          | cons b t' => exact ((ih m).cons a)

theorem swapAdj_map {α β : Type} (f : α → β) (l : List α) (n : Nat) :
    (swapAdj l n).map f = swapAdj (l.map f) n := by
  induction l generalizing n with
  | nil => rfl
  | cons a t ih =>
      cases n with
      | zero =>
          cases t with
          | nil => rfl
          | cons b t' => rfl
      | succ m =>
          cases t with
          | nil => rfl
          | cons b t' => simpa [swapAdj] using ih m

theorem le_foldr_max (x : Nat) (l : List Nat) (h : x ∈ l) : x ≤ l.foldr max 0 := by
  induction l with
  | nil => cases h
  | cons a t ih =>
      rcases List.mem_cons.mp h with h1 | h1
      · subst h1; exact Nat.le_max_left x (t.foldr max 0)
      · exact Nat.le_trans (ih h1) (Nat.le_max_right a (t.foldr max 0))

theorem foldr_max_perm (l l' : List Nat) (h : List.Perm l l') :
    l.foldr max 0 = l'.foldr max 0 := by
  induction h with
  | nil => rfl
  | cons a _ ih => simp [List.foldr_cons, ih]
  | swap a b t => simp [List.foldr_cons, Nat.max_left_comm]
  | trans _ _ ih1 ih2 => exact ih1.trans ih2

theorem foldr_max_range' (s n : Nat) :
    (List.range' s n).foldr max 0 = if n = 0 then 0 else s + n - 1 := by
  induction n generalizing s with
  | zero => rfl
  | succ m ih =>
      rw [List.range'_succ, List.foldr_cons, ih (s + 1)]
      cases m with
      | zero => simp
      | succ m' =>
          rw [if_neg (Nat.succ_ne_zero m'), if_neg (Nat.succ_ne_zero (m' + 1))]
          have h2 : s ≤ s + 1 + (m' + 1) - 1 := by omega
          rw [Nat.max_eq_right h2]
          omega

/-- With the day's orders a permutation of `1..N`, the SQL `MAX(ord)` is `N`. -/
theorem foldr_max_eq_length (l : List Nat) (n : Nat) (h : List.Perm l (List.range' 1 n)) :
    l.foldr max 0 = n := by
  rw [foldr_max_perm l (List.range' 1 n) h, foldr_max_range']
  split <;> omega

theorem orderedInsert_append_gt (a p : Place) (m : List Place) (h : a.ord < p.ord) :
    List.orderedInsert ordLE a (m ++ [p]) = List.orderedInsert ordLE a m ++ [p] := by
  induction m with
  | nil =>
      have hle : ordLE a p := Nat.le_of_lt h
      simp only [List.nil_append, List.orderedInsert, List.orderedInsert_nil]
      rw [if_pos hle]
      rfl
  | cons b m' ih =>
      simp only [List.cons_append, List.orderedInsert, List.append_eq]
      by_cases hab : ordLE a b
      · rw [if_pos hab, if_pos hab]; rfl
      · rw [if_neg hab, if_neg hab, ih]; rfl

/-- Appending a row whose `ord` exceeds every existing one sorts to the end. -/
theorem sortByOrd_append_gt (l : List Place) (p : Place)
    (h : ∀ q ∈ l, q.ord < p.ord) : sortByOrd (l ++ [p]) = sortByOrd l ++ [p] := by
  induction l with
  | nil => rfl
  | cons a t ih =>
      have ht : ∀ q ∈ t, q.ord < p.ord := fun q hq => h q (List.mem_cons_of_mem a hq)
      show List.orderedInsert ordLE a (sortByOrd (t ++ [p]))
          = List.orderedInsert ordLE a (sortByOrd t) ++ [p]
      rw [ih ht]
      exact orderedInsert_append_gt a p (sortByOrd t) (h a (List.mem_cons_self a t))

theorem add_place_places (s : Store) (day : Int) (name : String) (lat lng : Rat)
    (memo : String) :
    (add_place s day name lat lng memo).places
      = s.places ++ [newPlace s day name lat lng memo] := rfl

theorem add_filter_self (s : Store) (day : Int) (name : String) (lat lng : Rat)
    (memo : String) :
    (add_place s day name lat lng memo).places.filter (fun p => p.day = day)
      = s.places.filter (fun p => p.day = day) ++ [newPlace s day name lat lng memo] := by
  rw [add_place_places, List.filter_append]
  congr 1
  simp [newPlace]

theorem add_filter_other (s : Store) (day : Int) (name : String) (lat lng : Rat)
    (memo : String) (d' : Int) (hd' : d' ≠ day) :
    (add_place s day name lat lng memo).places.filter (fun p => p.day = d')
      = s.places.filter (fun p => p.day = d') := by
  rw [add_place_places, List.filter_append]
  have : List.filter (fun p => decide (p.day = d'))
      [newPlace s day name lat lng memo] = [] := by
    simp [newPlace]
    intro hc
    exact hd' hc.symm
  rw [this, List.append_nil]

/-- The inserted row's `ord` is strictly beyond every existing same-day `ord`. -/
theorem newPlace_ord_gt (s : Store) (day : Int) (name : String) (lat lng : Rat)
    (memo : String) :
    ∀ q ∈ s.places.filter (fun p => p.day = day),
      q.ord < (newPlace s day name lat lng memo).ord := by
  intro q hq
  have : q.ord ≤ ((s.places.filter (fun p => p.day = day)).map (fun p => p.ord)).foldr max 0 :=
    le_foldr_max q.ord _ (List.mem_map_of_mem (fun p => p.ord) hq)
  show q.ord < next_ord s day
  unfold next_ord
  omega

/-- Fetching `list(D)` right after `add(D, …)` gives the old list with the new row last. -/
theorem fetch_places_add_self (s : Store) (day : Int) (name : String) (lat lng : Rat)
    (memo : String) :
    fetch_places (add_place s day name lat lng memo) day
      = fetch_places s day ++ [newPlace s day name lat lng memo] := by
  unfold fetch_places
  rw [add_filter_self]
  exact sortByOrd_append_gt _ _ (newPlace_ord_gt s day name lat lng memo)

theorem fetch_places_add_other (s : Store) (day : Int) (name : String) (lat lng : Rat)
    (memo : String) (d' : Int) (hd' : d' ≠ day) :
    fetch_places (add_place s day name lat lng memo) d' = fetch_places s d' := by
  unfold fetch_places
  rw [add_filter_other s day name lat lng memo d' hd']

theorem findIdx?_at {α : Type} (p : α → Bool) (l : List α) :
    ∀ (i : Nat) (hi : i < l.length), p (l.get ⟨i, hi⟩) = true →
      (∀ j, j < i → ∀ (hj : j < l.length), p (l.get ⟨j, hj⟩) = false) →
      l.findIdx? p = some i := by
  induction l with
  | nil => intro i hi; cases hi
  | cons a t ih =>
      intro i hi hp hbefore
      cases i with
      | zero =>
          have hpa : p a = true := hp
          rw [List.findIdx?_cons, if_pos hpa]
      | succ m =>
          have ha : p a = false :=
            hbefore 0 (Nat.succ_pos m) (Nat.succ_pos t.length)
          rw [List.findIdx?_cons, if_neg (by rw [ha]; exact Bool.false_ne_true),
            List.findIdx?_succ]
          have hm : m < t.length := Nat.lt_of_succ_lt_succ hi
          have hrec := ih m hm hp (fun j hj hjl =>
            hbefore (j + 1) (Nat.succ_lt_succ hj) (Nat.succ_lt_succ hjl))
          rw [hrec]
          rfl

theorem WF_applyStore (s : Store) (upds : List (Nat × Nat)) (h : WF s) :
    WF ⟨applyUpdates s.places upds, s.nextId⟩ := by
  constructor
  · show ((applyUpdates s.places upds).map (fun p => p.id)).Nodup
    rw [applyUpdates_map_id]
    exact h.1
  · intro p hp
    rw [show (⟨applyUpdates s.places upds, s.nextId⟩ : Store).places
        = applyUpdates s.places upds from rfl, applyUpdates_eq_map] at hp
    rcases List.mem_map.mp hp with ⟨p0, hp0, hval⟩
    have hids : p.id = p0.id := by rw [← hval]; exact foldl_stepUpd_id upds p0
    show p.id < s.nextId
    rw [hids]
    exact h.2 p0 hp0

theorem WF_filterStore (s : Store) (f : Place → Bool) (h : WF s) :
    WF ⟨s.places.filter f, s.nextId⟩ := by
  constructor
  · exact List.Nodup.sublist ((List.filter_sublist s.places).map (fun p => p.id)) h.1
  · intro p hp
    exact h.2 p (List.mem_filter.mp hp).1

theorem WF_add (s : Store) (d : Int) (n : String) (la ln : Rat) (m : String)
    (h : WF s) : WF (add_place s d n la ln m) := by
  constructor
  · rw [add_place_places, List.map_append, List.nodup_append]
    refine ⟨h.1, List.nodup_singleton _, ?_⟩
    intro x hx hx2
    have hxe : x = s.nextId := by
      simpa [newPlace] using hx2
    rcases List.mem_map.mp hx with ⟨p, hp, hpx⟩
    have hlt := h.2 p hp
    rw [← hpx] at hxe
    omega
  · intro p hp
    rw [add_place_places] at hp
    rcases List.mem_append.mp hp with h1 | h1
    · exact Nat.lt_trans (h.2 p h1) (Nat.lt_succ_self _)
    · have hpe : p = newPlace s d n la ln m := List.mem_singleton.mp h1
      rw [hpe]
      exact Nat.lt_succ_self _

theorem WF_delete (s : Store) (pid : Nat) (d : Int) (h : WF s) :
    WF (delete_place s pid d) := by
  have h1 : WF ⟨s.places.filter (fun p => p.id ≠ pid), s.nextId⟩ :=
    WF_filterStore s (fun p => p.id ≠ pid) h
  exact WF_applyStore ⟨s.places.filter (fun p => p.id ≠ pid), s.nextId⟩
    (enumFrom 1 ((sortByOrd ((s.places.filter (fun p => p.id ≠ pid)).filter
      (fun p => p.day = d))).map (fun p => p.id))) h1

theorem WF_move (s : Store) (d : Int) (pid : Nat) (dir : String) (h : WF s) :
    WF (move_place s d pid dir) := by
  unfold move_place
  split
  · exact h
  · split
    · exact WF_applyStore s _ h
    · split
      · exact WF_applyStore s _ h
      · exact h

theorem fetch_ids_nodup (s : Store) (d : Int)
    (h : (s.places.map (fun p => p.id)).Nodup) :
    ((fetch_places s d).map (fun p => p.id)).Nodup := by
  have h1 : List.Perm ((fetch_places s d).map (fun p => p.id))
      ((s.places.filter (fun p => p.day = d)).map (fun p => p.id)) :=
    (sortByOrd_perm _).map _
  exact h1.symm.nodup
    (List.Nodup.sublist (List.Sublist.map (fun p : Place => p.id)
      (List.filter_sublist s.places)) h)

/-- Locating a row by id in the fetched day list finds exactly its position. -/
theorem move_findIdx (s : Store) (d : Int) (pid : Nat) (i : Nat)
    (hWF : (s.places.map (fun p => p.id)).Nodup)
    (hi : i < (fetch_places s d).length)
    (hid : ((fetch_places s d).get ⟨i, hi⟩).id = pid) :
    ((fetch_places s d).map (fun p => (p.id, p.ord))).findIdx?
      (fun r => r.1 = pid) = some i := by
  have hnod := fetch_ids_nodup s d hWF
  have hlen : ((fetch_places s d).map (fun p => (p.id, p.ord))).length
      = (fetch_places s d).length := List.length_map _ _
  apply findIdx?_at _ _ i (by rw [hlen]; exact hi)
  · have hget : ((fetch_places s d).map (fun p => (p.id, p.ord))).get
        ⟨i, by rw [hlen]; exact hi⟩ = (((fetch_places s d).get ⟨i, hi⟩).id,
          ((fetch_places s d).get ⟨i, hi⟩).ord) := List.get_map _
    rw [hget]
    exact decide_eq_true hid
  · intro j hj hjl
    have hjl' : j < (fetch_places s d).length := by rw [← hlen]; exact hjl
    have hget : ((fetch_places s d).map (fun p => (p.id, p.ord))).get
        ⟨j, hjl⟩ = (((fetch_places s d).get ⟨j, hjl'⟩).id,
          ((fetch_places s d).get ⟨j, hjl'⟩).ord) := List.get_map _
    rw [hget]
    apply decide_eq_false
    intro hc
    have hc' : ((fetch_places s d).get ⟨j, hjl'⟩).id = pid := hc
    have hidsj : ((fetch_places s d).map (fun p => p.id)).get
        ⟨j, by rw [List.length_map]; exact hjl'⟩
        = ((fetch_places s d).map (fun p => p.id)).get
          ⟨i, by rw [List.length_map]; exact hi⟩ := by
      rw [List.get_map, List.get_map]
      show ((fetch_places s d).get ⟨j, hjl'⟩).id = ((fetch_places s d).get ⟨i, hi⟩).id
      rw [hc', hid]
    have := (List.Nodup.get_inj_iff hnod).mp hidsj
    have hji : j = i := congrArg Fin.val this
    omega

/-- What `delete_place` does, in terms of the remaining rows: day `d`
is re-fetched and renumbered `1..N`, every other day keeps exactly the
rows that survive the id deletion. -/
theorem delete_spec (s : Store) (pid : Nat) (d : Int)
    (hids : (s.places.map (fun p => p.id)).Nodup) :
    fetch_places (delete_place s pid d) d
      = renumberList (sortByOrd ((s.places.filter (fun p => p.id ≠ pid)).filter
          (fun p => p.day = d))) ∧
    ∀ d' : Int, d' ≠ d →
      (delete_place s pid d).places.filter (fun p => p.day = d')
        = (s.places.filter (fun p => p.id ≠ pid)).filter (fun p => p.day = d') := by
  have hsub : ((s.places.filter (fun p => p.id ≠ pid)).map (fun p => p.id)).Nodup :=
    List.Nodup.sublist (List.Sublist.map (fun p : Place => p.id)
      (List.filter_sublist s.places)) hids
  exact renumber_spec (s.places.filter (fun p => p.id ≠ pid)) d
    (sortByOrd ((s.places.filter (fun p => p.id ≠ pid)).filter (fun p => p.day = d)))
    hsub (sortByOrd_perm _)

/-- What the updating branches of `move_place` do: with `l` the day's
fetched list and `k` an adjacent-swap position, the store obtained by
renumbering along the swapped row order re-fetches to
`renumberList (swapAdj l k)` and keeps every other day intact. -/
theorem swap_renumber_fetch (s : Store) (d : Int) (k : Nat)
    (hids : (s.places.map (fun p => p.id)).Nodup) :
    fetch_places ⟨applyUpdates s.places (enumFrom 1
        ((swapAdj ((fetch_places s d).map (fun p => (p.id, p.ord))) k).map
          (fun r => r.1))), s.nextId⟩ d
      = renumberList (swapAdj (fetch_places s d) k) ∧
    ∀ d' : Int, d' ≠ d →
      (applyUpdates s.places (enumFrom 1
        ((swapAdj ((fetch_places s d).map (fun p => (p.id, p.ord))) k).map
          (fun r => r.1)))).filter (fun p => p.day = d')
        = s.places.filter (fun p => p.day = d') := by
  have hrw : (swapAdj ((fetch_places s d).map (fun p => (p.id, p.ord))) k).map
      (fun r => r.1) = (swapAdj (fetch_places s d) k).map (fun p => p.id) := by
    rw [← swapAdj_map (fun p => (p.id, p.ord)) (fetch_places s d) k, List.map_map]
    rfl
  rw [hrw]
  have hq : List.Perm (swapAdj (fetch_places s d) k)
      (s.places.filter (fun p => p.day = d)) :=
    (swapAdj_perm _ k).trans (sortByOrd_perm _)
  exact renumber_spec s.places d (swapAdj (fetch_places s d) k) hids hq

theorem OrdInv_empty : OrdInv emptyStore := by
  intro d
  exact List.Perm.refl _

theorem OrdInv_add (s : Store) (d : Int) (n : String) (la ln : Rat) (m : String)
    (h : OrdInv s) : OrdInv (add_place s d n la ln m) := by
  intro d'
  by_cases hd : d' = d
  · subst hd
    have hN := h d'
    have hord : (newPlace s d' n la ln m).ord
        = (s.places.filter (fun p => p.day = d')).length + 1 := by
      show next_ord s d' = _
      unfold next_ord
      rw [foldr_max_eq_length _ _ hN]
    rw [add_filter_self, List.map_append, List.length_append]
    simp only [List.map_cons, List.map_nil, List.length_cons, List.length_nil]
    rw [hord]
    have hcat : List.range' 1 ((s.places.filter (fun p => p.day = d')).length + (0 + 1))
        = List.range' 1 (s.places.filter (fun p => p.day = d')).length
          ++ [(s.places.filter (fun p => p.day = d')).length + 1] := by
      have h1 : 1 + 1 * (s.places.filter (fun p => p.day = d')).length
          = (s.places.filter (fun p => p.day = d')).length + 1 := by omega
      have h2 : (s.places.filter (fun p => p.day = d')).length + (0 + 1)
          = (s.places.filter (fun p => p.day = d')).length + 1 := by omega
      rw [h2, List.range'_concat, h1]
    rw [hcat]
    exact hN.append_right _
  · show List.Perm (((add_place s d n la ln m).places.filter
        (fun p => p.day = d')).map (fun p => p.ord))
      (List.range' 1 ((add_place s d n la ln m).places.filter
        (fun p => p.day = d')).length)
    rw [add_filter_other s d n la ln m d' hd]
    exact h d'

theorem OrdInv_delete (s : Store) (pid : Nat) (d : Int) (hWF : WF s)
    (hInv : OrdInv s) (hscope : ∀ p ∈ s.places, p.id = pid → p.day = d) :
    OrdInv (delete_place s pid d) := by
  obtain ⟨hds, hother⟩ := delete_spec s pid d hWF.1
  intro d'
  by_cases hd : d' = d
  · subst hd
    have hperm : List.Perm
        ((delete_place s pid d').places.filter (fun p => p.day = d'))
        (renumberList (sortByOrd ((s.places.filter (fun p => p.id ≠ pid)).filter
          (fun p => p.day = d')))) := by
      rw [← hds]
      exact (sortByOrd_perm _).symm
    have h2 := hperm.map (fun p => p.ord)
    rw [renumberList_map_ord] at h2
    have hlen : ((delete_place s pid d').places.filter (fun p => p.day = d')).length
        = (sortByOrd ((s.places.filter (fun p => p.id ≠ pid)).filter
            (fun p => p.day = d'))).length := by
      rw [hperm.length_eq, renumberList_length]
    rw [hlen]
    exact h2
  · rw [hother d' hd]
    have heq : (s.places.filter (fun p => p.id ≠ pid)).filter (fun p => p.day = d')
        = s.places.filter (fun p => p.day = d') := by
      rw [List.filter_filter]
      apply List.filter_congr
      intro p hp
      by_cases hpd : p.day = d'
      · have hpid : p.id ≠ pid := by
          intro hc
          have h1 : p.day = d := hscope p hp hc
          rw [hpd] at h1
          exact hd h1
        simp [hpd, hpid]
      · simp [hpd]
    rw [heq]
    exact hInv d'

theorem move_branch_up (s : Store) (d : Int) (pid : Nat) (i : Nat)
    (hWF : (s.places.map (fun p => p.id)).Nodup)
    (hi : i < (fetch_places s d).length)
    (hid : ((fetch_places s d).get ⟨i, hi⟩).id = pid)
    (hpos : 0 < i) :
    move_place s d pid "up" = ⟨applyUpdates s.places (enumFrom 1
        ((swapAdj ((fetch_places s d).map (fun p => (p.id, p.ord))) (i - 1)).map
          (fun r => r.1))), s.nextId⟩ := by
  have hfind := move_findIdx s d pid i hWF hi hid
  unfold move_place
  rw [hfind]
  exact if_pos ⟨rfl, hpos⟩

theorem move_branch_down (s : Store) (d : Int) (pid : Nat) (i : Nat)
    (hWF : (s.places.map (fun p => p.id)).Nodup)
    (hi : i < (fetch_places s d).length)
    (hid : ((fetch_places s d).get ⟨i, hi⟩).id = pid)
    (hlt : i < (fetch_places s d).length - 1) :
    move_place s d pid "down" = ⟨applyUpdates s.places (enumFrom 1
        ((swapAdj ((fetch_places s d).map (fun p => (p.id, p.ord))) i).map
          (fun r => r.1))), s.nextId⟩ := by
  have hfind := move_findIdx s d pid i hWF hi hid
  unfold move_place
  rw [hfind]
  have h1 : ¬(("down" : String) = "up" ∧ 0 < i) :=
    fun hc => (by decide : ("down" : String) ≠ "up") hc.1
  have h2 : ("down" : String) = "down" ∧
      i < ((fetch_places s d).map (fun p => (p.id, p.ord))).length - 1 :=
    ⟨rfl, by rw [List.length_map]; exact hlt⟩
  exact (if_neg h1).trans (if_pos h2)

theorem move_place_first_up (s : Store) (d : Int) (pid : Nat)
    (hWF : (s.places.map (fun p => p.id)).Nodup)
    (hne : fetch_places s d ≠ [])
    (hid : ((fetch_places s d).get ⟨0, List.length_pos.mpr hne⟩).id = pid) :
    move_place s d pid "up" = s := by
  have hfind := move_findIdx s d pid 0 hWF (List.length_pos.mpr hne) hid
  unfold move_place
  rw [hfind]
  have h1 : ¬(("up" : String) = "up" ∧ 0 < 0) := fun hc => Nat.lt_irrefl 0 hc.2
  have h2 : ¬(("up" : String) = "down" ∧
      0 < ((fetch_places s d).map (fun p => (p.id, p.ord))).length - 1) :=
    fun hc => (by decide : ("up" : String) ≠ "down") hc.1
  exact (if_neg h1).trans (if_neg h2)

theorem move_place_last_down (s : Store) (d : Int) (pid : Nat)
    (hWF : (s.places.map (fun p => p.id)).Nodup)
    (hne : fetch_places s d ≠ [])
    (hid : ((fetch_places s d).get ⟨(fetch_places s d).length - 1,
      Nat.sub_lt (List.length_pos.mpr hne) Nat.one_pos⟩).id = pid) :
    move_place s d pid "down" = s := by
  have hfind := move_findIdx s d pid ((fetch_places s d).length - 1) hWF
    (Nat.sub_lt (List.length_pos.mpr hne) Nat.one_pos) hid
  unfold move_place
  rw [hfind]
  have h1 : ¬(("down" : String) = "up" ∧ 0 < (fetch_places s d).length - 1) :=
    fun hc => (by decide : ("down" : String) ≠ "up") hc.1
  have h2 : ¬(("down" : String) = "down" ∧ (fetch_places s d).length - 1
      < ((fetch_places s d).map (fun p => (p.id, p.ord))).length - 1) := by
    intro hc
    rw [List.length_map] at hc
    exact Nat.lt_irrefl _ hc.2
  exact (if_neg h1).trans (if_neg h2)

theorem move_place_not_found (s : Store) (d : Int) (pid : Nat) (dir : String)
    (h : pid ∉ (s.places.filter (fun p => p.day = d)).map (fun p => p.id)) :
    move_place s d pid dir = s := by
  have hnone : ((fetch_places s d).map (fun p => (p.id, p.ord))).findIdx?
      (fun r => r.1 = pid) = none := by
    rw [List.findIdx?_eq_none_iff]
    intro x hx
    rcases List.mem_map.mp hx with ⟨p, hp, hpx⟩
    have hpf : p ∈ s.places.filter (fun q => q.day = d) :=
      (sortByOrd_perm _).subset hp
    have hpid : p.id ≠ pid := by
      intro hc
      exact h (hc ▸ List.mem_map_of_mem (fun q => q.id) hpf)
    rw [← hpx]
    exact decide_eq_false hpid
  unfold move_place
  rw [hnone]

theorem move_place_other_dir (s : Store) (d : Int) (pid : Nat) (dir : String)
    (hup : dir ≠ "up") (hdown : dir ≠ "down") :
    move_place s d pid dir = s := by
  unfold move_place
  cases hfind : ((fetch_places s d).map (fun p => (p.id, p.ord))).findIdx?
      (fun r => r.1 = pid) with
  | none => rfl
  | some idx =>
      have h1 : ¬(dir = "up" ∧ 0 < idx) := fun hc => hup hc.1
      have h2 : ¬(dir = "down" ∧
          idx < ((fetch_places s d).map (fun p => (p.id, p.ord))).length - 1) :=
        fun hc => hdown hc.1
      exact (if_neg h1).trans (if_neg h2)

theorem dayPerm_of_fetch_renumber (s' : Store) (d : Int) (q : List Place)
    (hfetch : fetch_places s' d = renumberList q) :
    List.Perm ((s'.places.filter (fun p => p.day = d)).map (fun p => p.ord))
      (List.range' 1 (s'.places.filter (fun p => p.day = d)).length) := by
  have hperm : List.Perm (s'.places.filter (fun p => p.day = d)) (renumberList q) := by
    rw [← hfetch]
    exact (sortByOrd_perm _).symm
  have h2 := hperm.map (fun p => p.ord)
  rw [renumberList_map_ord] at h2
  have hlen : (s'.places.filter (fun p => p.day = d)).length = q.length := by
    rw [hperm.length_eq, renumberList_length]
  rw [hlen]
  exact h2

theorem OrdInv_update_store (s : Store) (d : Int) (upds : List (Nat × Nat))
    (q : List Place)
    (hfetch : fetch_places ⟨applyUpdates s.places upds, s.nextId⟩ d = renumberList q)
    (hother : ∀ d' : Int, d' ≠ d → (applyUpdates s.places upds).filter
        (fun p => p.day = d') = s.places.filter (fun p => p.day = d'))
    (hInv : OrdInv s) :
    OrdInv ⟨applyUpdates s.places upds, s.nextId⟩ := by
  intro d'
  by_cases hd : d' = d
  · subst hd
    exact dayPerm_of_fetch_renumber ⟨applyUpdates s.places upds, s.nextId⟩ d' q hfetch
  · show List.Perm (((applyUpdates s.places upds).filter
        (fun p => p.day = d')).map (fun p => p.ord))
      (List.range' 1 ((applyUpdates s.places upds).filter
        (fun p => p.day = d')).length)
    rw [hother d' hd]
    exact hInv d'

theorem OrdInv_move (s : Store) (d : Int) (pid : Nat) (dir : String)
    (hWF : WF s) (hInv : OrdInv s) : OrdInv (move_place s d pid dir) := by
  unfold move_place
  split
  · exact hInv
  · split
    · obtain ⟨hfetch, hother⟩ := swap_renumber_fetch s d _ hWF.1
      exact OrdInv_update_store s d _ _ hfetch hother hInv
    · split
      · obtain ⟨hfetch, hother⟩ := swap_renumber_fetch s d _ hWF.1
        exact OrdInv_update_store s d _ _ hfetch hother hInv
      · exact hInv

theorem foldl_stepUpd_enumFrom_mem (rowIds : List Nat) :
    ∀ (n : Nat) (p : Place) (j : Nat) (hj : j < rowIds.length), rowIds.Nodup →
      rowIds.get ⟨j, hj⟩ = p.id →
      (enumFrom n rowIds).foldl stepUpd p = { p with ord := n + j } := by
  induction rowIds with
  | nil => intro n p j hj; cases hj
  | cons a t ih =>
      intro n p j hj hnd hget
      rw [show enumFrom n (a :: t) = (n, a) :: enumFrom (n + 1) t from rfl,
        List.foldl_cons]
      rcases List.nodup_cons.mp hnd with ⟨hat, hndt⟩
      cases j with
      | zero =>
          have ha : a = p.id := hget
          have h1 : stepUpd p (n, a) = { p with ord := n } := by
            unfold stepUpd
            rw [if_pos ha.symm]
          rw [h1]
          have hnot : ({ p with ord := n } : Place).id ∉ t := by
            show p.id ∉ t
            rw [← ha]
            exact hat
          rw [foldl_stepUpd_enumFrom_not_mem (n + 1) t _ hnot]
          show ({ p with ord := n } : Place) = { p with ord := n + 0 }
          rw [Nat.add_zero]
      | succ m =>
          have hmem : p.id ∈ t := by
            rw [← hget]
            exact List.get_mem t m (Nat.lt_of_succ_lt_succ hj)
          have hne : p.id ≠ a := by
            intro hc
            rw [hc] at hmem
            exact hat hmem
          have h1 : stepUpd p (n, a) = p := by
            unfold stepUpd
            rw [if_neg hne]
          rw [h1]
          have := ih (n + 1) p m (Nat.lt_of_succ_lt_succ hj) hndt hget
          rw [this]
          show ({ p with ord := n + 1 + m } : Place) = { p with ord := n + (m + 1) }
          rw [Nat.add_assoc, Nat.add_comm 1 m]

/-- Deleting an id that is absent from the whole table, on a day whose
orders are already contiguous, changes nothing. -/
theorem delete_place_absent (s : Store) (pid : Nat) (d : Int)
    (hWF : WF s)
    (habs : pid ∉ s.places.map (fun p => p.id))
    (hinv : (fetch_places s d).map (fun p => p.ord)
        = List.range' 1 (fetch_places s d).length) :
    delete_place s pid d = s := by
  have hrem : s.places.filter (fun p => p.id ≠ pid) = s.places := by
    rw [List.filter_eq_self]
    intro p hp
    apply decide_eq_true
    intro hc
    exact habs (hc ▸ List.mem_map_of_mem (fun q => q.id) hp)
  show (⟨applyUpdates (s.places.filter (fun p => p.id ≠ pid)) (enumFrom 1
      ((sortByOrd ((s.places.filter (fun p => p.id ≠ pid)).filter
        (fun p => p.day = d))).map (fun p => p.id))), s.nextId⟩ : Store) = s
  rw [hrem]
  have hnodIds : ((fetch_places s d).map (fun p => p.id)).Nodup :=
    fetch_ids_nodup s d hWF.1
  have hfix : ∀ p ∈ s.places,
      (enumFrom 1 ((fetch_places s d).map (fun p => p.id))).foldl stepUpd p = p := by
    intro p hp
    by_cases hpid : p.id ∈ (fetch_places s d).map (fun p => p.id)
    · rcases List.mem_iff_get.mp hpid with ⟨⟨j, hj⟩, hget⟩
      have hjf : j < (fetch_places s d).length := by
        rw [List.length_map] at hj
        exact hj
      have hgetf : ((fetch_places s d).map (fun p => p.id)).get ⟨j, hj⟩
          = ((fetch_places s d).get ⟨j, hjf⟩).id := List.get_map _
      have hpmem : (fetch_places s d).get ⟨j, hjf⟩ ∈ s.places := by
        have h1 : (fetch_places s d).get ⟨j, hjf⟩ ∈ fetch_places s d :=
          List.get_mem _ j hjf
        have h2 : (fetch_places s d).get ⟨j, hjf⟩
            ∈ s.places.filter (fun q => q.day = d) := (sortByOrd_perm _).subset h1
        exact (List.mem_filter.mp h2).1
      have hpe : (fetch_places s d).get ⟨j, hjf⟩ = p := by
        apply List.inj_on_of_nodup_map hWF.1 hpmem hp
        rw [← hgetf, hget]
      have hge := foldl_stepUpd_enumFrom_mem ((fetch_places s d).map
        (fun p => p.id)) 1 p j hj hnodIds hget
      rw [hge]
      have hordp : p.ord = 1 + j := by
        have h1 : ((fetch_places s d).map (fun p => p.ord)).get
            ⟨j, by rw [List.length_map]; exact hjf⟩
            = ((fetch_places s d).get ⟨j, hjf⟩).ord := List.get_map _
        have h2 := List.get_of_eq hinv ⟨j, by rw [List.length_map]; exact hjf⟩
        rw [h1, List.get_range', hpe] at h2
        simp only [Fin.val_mk] at h2
        omega
      rw [← hordp]
    · exact foldl_stepUpd_enumFrom_not_mem 1 _ p hpid
  have happ : applyUpdates s.places (enumFrom 1
      ((fetch_places s d).map (fun p => p.id))) = s.places := by
    rw [applyUpdates_eq_map]
    calc s.places.map (fun p => (enumFrom 1
          ((fetch_places s d).map (fun p => p.id))).foldl stepUpd p)
        = s.places.map id := List.map_congr_left hfix
      _ = s.places := List.map_id _
  rw [show sortByOrd (s.places.filter (fun p => p.day = d)) = fetch_places s d from rfl]
  rw [happ]

/-- When the day's orders are duplicate-free, deleting an id from the
table and re-sorting gives exactly the old ordered list minus that id. -/
theorem sortByOrd_remaining_filter (s : Store) (pid : Nat) (d : Int)
    (hnodOrd : ((fetch_places s d).map (fun p => p.ord)).Nodup) :
    sortByOrd ((s.places.filter (fun p => p.id ≠ pid)).filter (fun p => p.day = d))
      = (fetch_places s d).filter (fun p => p.id ≠ pid) := by
  have hcomm : (s.places.filter (fun p => p.id ≠ pid)).filter (fun p => p.day = d)
      = (s.places.filter (fun p => p.day = d)).filter (fun p => p.id ≠ pid) := by
    rw [List.filter_filter, List.filter_filter]
    apply List.filter_congr
    intro p _
    exact Bool.and_comm _ _
  have hA : List.Perm
      ((s.places.filter (fun p => p.id ≠ pid)).filter (fun p => p.day = d))
      ((fetch_places s d).filter (fun p => p.id ≠ pid)) := by
    rw [hcomm]
    exact List.Perm.filter _ (sortByOrd_perm _).symm
  have hperm2 : List.Perm
      (sortByOrd ((s.places.filter (fun p => p.id ≠ pid)).filter (fun p => p.day = d)))
      ((fetch_places s d).filter (fun p => p.id ≠ pid)) :=
    (sortByOrd_perm _).trans hA
  have hfetch_lt : List.Sorted ordLT (fetch_places s d) :=
    sorted_lt_of_sorted_le_nodup _ (sortByOrd_sorted _) hnodOrd
  have hB_lt : List.Sorted ordLT ((fetch_places s d).filter (fun p => p.id ≠ pid)) :=
    List.Pairwise.sublist (List.filter_sublist _) hfetch_lt
  have hnodB : (((fetch_places s d).filter (fun p => p.id ≠ pid)).map
      (fun p => p.ord)).Nodup :=
    List.Nodup.sublist (List.Sublist.map (fun p : Place => p.ord)
      (List.filter_sublist _)) hnodOrd
  have hnodA : ((sortByOrd ((s.places.filter (fun p => p.id ≠ pid)).filter
      (fun p => p.day = d))).map (fun p => p.ord)).Nodup :=
    (hperm2.map (fun p => p.ord)).symm.nodup hnodB
  have hA_lt := sorted_lt_of_sorted_le_nodup _ (sortByOrd_sorted _) hnodA
  exact List.eq_of_perm_of_sorted hperm2 hA_lt hB_lt

theorem WF_empty : WF emptyStore := by
  constructor
  · exact List.nodup_nil
  · intro p hp
    cases hp

theorem step_preserves (s : Store) (op : Op) (hWF : WF s) (hInv : OrdInv s)
    (hscope : dayScoped s op) : WF (applyOp s op) ∧ OrdInv (applyOp s op) := by
  cases op with
  | add d n la ln m =>
      exact ⟨WF_add s d n la ln m hWF, OrdInv_add s d n la ln m hInv⟩
  | del d pid =>
      exact ⟨WF_delete s pid d hWF, OrdInv_delete s pid d hWF hInv hscope⟩
  | move d pid dir =>
      exact ⟨WF_move s d pid dir hWF, OrdInv_move s d pid dir hWF hInv⟩

theorem runOps_take_inv (ops : List Op)
    (hsafe : ∀ (i : Nat) (h : i < ops.length),
      dayScoped (runOps (ops.take i)) (ops.get ⟨i, h⟩)) :
    ∀ n : Nat, WF (runOps (ops.take n)) ∧ OrdInv (runOps (ops.take n)) := by
  intro n
  induction n with
  | zero => exact ⟨WF_empty, OrdInv_empty⟩
  | succ m ih =>
      by_cases h : m < ops.length
      · have htake : ops.take (m + 1) = ops.take m ++ [ops.get ⟨m, h⟩] := by
          rw [List.take_succ, List.getElem?_eq_getElem h]
          rfl
        rw [htake]
        show WF (List.foldl applyOp emptyStore (ops.take m ++ [ops.get ⟨m, h⟩])) ∧
          OrdInv (List.foldl applyOp emptyStore (ops.take m ++ [ops.get ⟨m, h⟩]))
        rw [List.foldl_append]
        exact step_preserves (runOps (ops.take m)) (ops.get ⟨m, h⟩)
          ih.1 ih.2 (hsafe m h)
      · have htake : ops.take (m + 1) = ops.take m := by
          rw [List.take_of_length_le (by omega), List.take_of_length_le (by omega)]
        rw [htake]
        exact ih

/-! ### Claim theorems -/

/-- C2: submitting the add form with a name that strips to empty is a
`ValidationError` and nothing is inserted; otherwise exactly one new
row is appended for the day with order `max(existing day orders,
default 0) + 1`, every pre-existing record is unchanged, the new place
is last in the day's list, and other days' lists are untouched. -/
theorem C2_add_validation_and_append (s : Store) (day : Int) (name : String)
    (lat lng : Rat) (memo : String) :
    (strip name = "" → add_place_form s day name lat lng memo
      = FormResult.validationError) ∧
    (strip name ≠ "" →
      add_place_form s day name lat lng memo = FormResult.ok
        ⟨s.places ++ [newPlace s day (strip name) lat lng (strip memo)],
          s.nextId + 1⟩ ∧
      (newPlace s day (strip name) lat lng (strip memo)).ord
        = ((s.places.filter (fun p => p.day = day)).map (fun p => p.ord)).foldr
            max 0 + 1 ∧
      fetch_places (add_place s day (strip name) lat lng (strip memo)) day
        = fetch_places s day
          ++ [newPlace s day (strip name) lat lng (strip memo)] ∧
      ∀ d' : Int, d' ≠ day →
        fetch_places (add_place s day (strip name) lat lng (strip memo)) d'
          = fetch_places s d') := by
  constructor
  · intro h
    unfold add_place_form
    rw [if_pos h]
  · intro h
    refine ⟨?_, rfl, fetch_places_add_self s day (strip name) lat lng (strip memo),
      fun d' hd' => fetch_places_add_other s day (strip name) lat lng
        (strip memo) d' hd'⟩
    unfold add_place_form
    rw [if_neg h]
    rfl

/-- Witness for C2 at concrete inputs: a blank name is rejected, and a
real name is appended at the end of the day's list. -/
theorem C2_witness :
    add_place_form emptyStore 1 " " 37 127 "" = FormResult.validationError ∧
    fetch_places (add_place emptyStore 1 (strip "Cafe") 37 127 (strip "")) 1
      = fetch_places emptyStore 1
        ++ [newPlace emptyStore 1 (strip "Cafe") 37 127 (strip "")] :=
  ⟨(C2_add_validation_and_append emptyStore 1 " " 37 127 "").1 (by decide),
   ((C2_add_validation_and_append emptyStore 1 "Cafe" 37 127 "").2
     (by decide)).2.2.1⟩

/-- C3 (amended): `move(D, id, dir)` with an id not among day `D`'s ids
is a silent no-op leaving the whole store unchanged; `delete(D, id)` is
only guaranteed to leave the store unchanged when the id is absent from
the entire table and day `D`'s orders are already contiguous — an id
that lives in a different day is deleted from that day instead. -/
theorem C3_notfound_policy (s : Store) (d : Int) (pid : Nat) :
    (∀ dir : String, pid ∉ (fetch_places s d).map (fun p => p.id) →
      move_place s d pid dir = s) ∧
    (WF s → pid ∉ s.places.map (fun p => p.id) →
      (fetch_places s d).map (fun p => p.ord)
        = List.range' 1 (fetch_places s d).length →
      delete_place s pid d = s) := by
  constructor
  · intro dir h
    apply move_place_not_found
    intro hc
    apply h
    have hperm : List.Perm
        ((s.places.filter (fun p => p.day = d)).map (fun p => p.id))
        ((fetch_places s d).map (fun p => p.id)) :=
      ((sortByOrd_perm _).map _).symm
    exact hperm.subset hc
  · intro hWF habs hinv
    exact delete_place_absent s pid d hWF habs hinv

/-- C3 as stated is false: `delete(D, id)` with an id that belongs to a
different day is not a no-op — it removes that other day's record. -/
theorem C3_counterexample :
    1 ∉ (fetch_places (add_place emptyStore 2 "a" 0 0 "") 1).map (fun p => p.id) ∧
    delete_place (add_place emptyStore 2 "a" 0 0 "") 1 1
      ≠ add_place emptyStore 2 "a" 0 0 "" := by
  decide

/-- Witness for C3 (amended) at a concrete store: id 7 is absent, so
both operations leave the store untouched. -/
theorem C3_witness :
    move_place (add_place emptyStore 1 "a" 0 0 "") 1 7 "up"
      = add_place emptyStore 1 "a" 0 0 "" ∧
    delete_place (add_place emptyStore 1 "a" 0 0 "") 7 1
      = add_place emptyStore 1 "a" 0 0 "" :=
  ⟨(C3_notfound_policy (add_place emptyStore 1 "a" 0 0 "") 1 7).1 "up" (by decide),
   (C3_notfound_policy (add_place emptyStore 1 "a" 0 0 "") 1 7).2
     ⟨by decide, by decide⟩ (by decide) (by decide)⟩

/-- C4: deleting an id present in day `D` (whose orders satisfy the
contiguous invariant) removes exactly that id, keeps the remaining ids
in their relative order, and renumbers the orders to `1..N` for the new
count `N`. -/
theorem C4_delete_renumbers (s : Store) (d : Int) (pid : Nat)
    (hWF : WF s)
    (hinv : (fetch_places s d).map (fun p => p.ord)
      = List.range' 1 (fetch_places s d).length)
    (hmem : pid ∈ (fetch_places s d).map (fun p => p.id)) :
    fetch_places (delete_place s pid d) d
      = renumberList ((fetch_places s d).filter (fun p => p.id ≠ pid)) ∧
    (fetch_places (delete_place s pid d) d).map (fun p => p.id)
      = ((fetch_places s d).map (fun p => p.id)).filter (fun x => x ≠ pid) ∧
    pid ∉ (fetch_places (delete_place s pid d) d).map (fun p => p.id) ∧
    (fetch_places (delete_place s pid d) d).map (fun p => p.ord)
      = List.range' 1 ((fetch_places s d).filter (fun p => p.id ≠ pid)).length := by
  have hnodOrd : ((fetch_places s d).map (fun p => p.ord)).Nodup := by
    rw [hinv]
    exact List.nodup_range' 1 _
  have h1 := (delete_spec s pid d hWF.1).1
  rw [sortByOrd_remaining_filter s pid d hnodOrd] at h1
  have h2 : (fetch_places (delete_place s pid d) d).map (fun p => p.id)
      = ((fetch_places s d).map (fun p => p.id)).filter (fun x => x ≠ pid) := by
    rw [h1, renumberList_map_id, List.filter_map]
    rfl
  refine ⟨h1, h2, ?_, ?_⟩
  · rw [h2]
    intro hc
    exact (of_decide_eq_true (List.mem_filter.mp hc).2) rfl
  · rw [h1, renumberList_map_ord]

/-- Witness for C4: deleting id 1 from a two-place day leaves id 2
renumbered to order 1. -/
theorem C4_witness :
    fetch_places (delete_place (add_place (add_place emptyStore 1 "a" 0 0 "")
        1 "b" 0 0 "") 1 1) 1
      = renumberList ((fetch_places (add_place (add_place emptyStore 1 "a" 0 0 "")
          1 "b" 0 0 "") 1).filter (fun p => p.id ≠ 1)) ∧
    (fetch_places (delete_place (add_place (add_place emptyStore 1 "a" 0 0 "")
        1 "b" 0 0 "") 1 1) 1).map (fun p => p.id)
      = ((fetch_places (add_place (add_place emptyStore 1 "a" 0 0 "")
          1 "b" 0 0 "") 1).map (fun p => p.id)).filter (fun x => x ≠ 1) ∧
    1 ∉ (fetch_places (delete_place (add_place (add_place emptyStore 1 "a" 0 0 "")
        1 "b" 0 0 "") 1 1) 1).map (fun p => p.id) ∧
    (fetch_places (delete_place (add_place (add_place emptyStore 1 "a" 0 0 "")
        1 "b" 0 0 "") 1 1) 1).map (fun p => p.ord)
      = List.range' 1 ((fetch_places (add_place (add_place emptyStore 1 "a" 0 0 "")
          1 "b" 0 0 "") 1).filter (fun p => p.id ≠ 1)).length :=
  C4_delete_renumbers (add_place (add_place emptyStore 1 "a" 0 0 "") 1 "b" 0 0 "")
    1 1 ⟨by decide, by decide⟩ (by decide) (by decide)

/-- C9: any direction string other than `"up"` and `"down"` makes
`move_place` return without touching the store, even when the id is
present and the day's orders are not contiguous. -/
theorem C9_other_direction (s : Store) (d : Int) (pid : Nat) (dir : String)
    (hup : dir ≠ "up") (hdown : dir ≠ "down") :
    move_place s d pid dir = s :=
  move_place_other_dir s d pid dir hup hdown

/-- Witness for C9: direction `"left"` on a store whose only record has
the non-contiguous order 5 changes nothing. -/
theorem C9_witness :
    move_place ⟨[⟨1, 1, 5, "a", 0, 0, ""⟩], 2⟩ 1 1 "left"
      = ⟨[⟨1, 1, 5, "a", 0, 0, ""⟩], 2⟩ :=
  C9_other_direction ⟨[⟨1, 1, 5, "a", 0, 0, ""⟩], 2⟩ 1 1 "left"
    (by decide) (by decide)

/-- C10: the core operations enforce no day-range restriction — for any
integer day `d` the inserted record appears in `list(d)` and in no other
day's list, which is otherwise unchanged; the `[1, 13]` bound exists
only as the UI day-selector options. -/
theorem C10_no_day_restriction (s : Store) (d : Int) (n : String)
    (la ln : Rat) (m : String) :
    newPlace s d n la ln m ∈ fetch_places (add_place s d n la ln m) d ∧
    (∀ d' : Int, d' ≠ d →
      fetch_places (add_place s d n la ln m) d' = fetch_places s d' ∧
      newPlace s d n la ln m ∉ fetch_places (add_place s d n la ln m) d') ∧
    day_options = [1, 2, 3, 4, 5, 6, 7, 8, 9, 10, 11, 12, 13] := by
  refine ⟨?_, ?_, by decide⟩
  · rw [fetch_places_add_self]
    exact List.mem_append_right _ (List.mem_singleton.mpr rfl)
  · intro d' hd'
    refine ⟨fetch_places_add_other s d n la ln m d' hd', ?_⟩
    intro hc
    have h1 : newPlace s d n la ln m
        ∈ (add_place s d n la ln m).places.filter (fun p => p.day = d') :=
      (sortByOrd_perm _).subset hc
    have h2 : (newPlace s d n la ln m).day = d' :=
      of_decide_eq_true (List.mem_filter.mp h1).2
    have h3 : d = d' := h2
    exact hd' h3.symm

/-- Witness for C10 at day 99, far outside the UI's 1–13 options. -/
theorem C10_witness :
    newPlace emptyStore 99 "x" 0 0 "" ∈
      fetch_places (add_place emptyStore 99 "x" 0 0 "") 99 ∧
    fetch_places (add_place emptyStore 99 "x" 0 0 "") 1
      = fetch_places emptyStore 1 :=
  ⟨(C10_no_day_restriction emptyStore 99 "x" 0 0 "").1,
   ((C10_no_day_restriction emptyStore 99 "x" 0 0 "").2.1 1 (by decide)).1⟩

theorem build_map_polylines (d : Int) (places : List Place) :
    (build_map d places).polylines =
      if 2 ≤ (places.map (fun p => (p.lat, p.lng))).length then
        { coords := places.map (fun p => (p.lat, p.lng)), tooltip := "전체 동선",
          link := none } :: segLines (places.map (fun p => (p.lat, p.lng)))
      else [] := rfl

theorem filterMap_some_comp {α β : Type} (g : α → β) (l : List α) :
    l.filterMap (fun a => some (g a)) = l.map g := by
  induction l with
  | nil => rfl
  | cons a t ih => simp [List.filterMap_cons, ih]

theorem legLinks_build_map (d : Int) (places : List Place)
    (h : 2 ≤ places.length) :
    legLinks (build_map d places)
      = (List.range (places.length - 1)).map (fun i =>
          gmaps_transit_link
            ((places.map (fun p => (p.lat, p.lng))).getD i (0, 0)).1
            ((places.map (fun p => (p.lat, p.lng))).getD i (0, 0)).2
            ((places.map (fun p => (p.lat, p.lng))).getD (i + 1) (0, 0)).1
            ((places.map (fun p => (p.lat, p.lng))).getD (i + 1) (0, 0)).2) := by
  unfold legLinks
  rw [build_map_polylines, if_pos (by rw [List.length_map]; exact h)]
  have hnone : (fun pl : Polyline => pl.link)
      ({ coords := places.map (fun p => (p.lat, p.lng)), tooltip := "전체 동선",
         link := none } : Polyline) = none := rfl
  rw [List.filterMap_cons_none hnone]
  unfold segLines
  rw [List.filterMap_map, List.length_map]
  exact filterMap_some_comp _ _

/-- C7: with `N ≥ 2` places the Route Composer carries exactly `N - 1`
leg links, and on exactly two places the single link is byte-exact the
Google transit URL with the two coordinate pairs substituted. -/
theorem C7_leg_links (d : Int) (places : List Place) (h : 2 ≤ places.length) :
    (legLinks (build_map d places)).length = places.length - 1 ∧
    ∀ p1 p2 : Place, places = [p1, p2] →
      legLinks (build_map d places)
        = ["https://www.google.com/maps/dir/?api=1" ++ "&origin="
            ++ toString p1.lat ++ "," ++ toString p1.lng ++ "&destination="
            ++ toString p2.lat ++ "," ++ toString p2.lng
            ++ "&travelmode=transit"] := by
  constructor
  · rw [legLinks_build_map d places h, List.length_map, List.length_range]
  · intro p1 p2 heq
    subst heq
    rfl

/-- Witness for C7: two concrete places produce exactly this URL. -/
theorem C7_witness :
    legLinks (build_map 1 [⟨1, 1, 1, "a", 37, 127, ""⟩, ⟨2, 1, 2, "b", 38, 128, ""⟩])
      = ["https://www.google.com/maps/dir/?api=1&origin=37,127&destination=38,128&travelmode=transit"] ∧
    (legLinks (build_map 1 [⟨1, 1, 1, "a", 37, 127, ""⟩,
      ⟨2, 1, 2, "b", 38, 128, ""⟩])).length = 1 := by
  constructor
  · have h := (C7_leg_links 1 [⟨1, 1, 1, "a", 37, 127, ""⟩,
      ⟨2, 1, 2, "b", 38, 128, ""⟩] (by decide)).2
      ⟨1, 1, 1, "a", 37, 127, ""⟩ ⟨2, 1, 2, "b", 38, 128, ""⟩ rfl
    rw [h]
    decide
  · exact (C7_leg_links 1 [⟨1, 1, 1, "a", 37, 127, ""⟩,
      ⟨2, 1, 2, "b", 38, 128, ""⟩] (by decide)).1

/-- C8: on an empty list the Route Composer centres on the Default
Origin `(37.5665, 126.9780)` with zoom 12, strictly below the populated
zoom, and renders no markers, no polylines and no leg links; on a
non-empty list the centre is the arithmetic mean of the coordinates. -/
theorem C8_empty_map_and_centroid (d : Int) :
    (build_map d []).center = (37.5665, 126.9780) ∧
    (build_map d []).zoom = 12 ∧
    (build_map d []).markers = [] ∧
    (build_map d []).polylines = [] ∧
    legLinks (build_map d []) = [] ∧
    ∀ places : List Place, places ≠ [] →
      (build_map d []).zoom < (build_map d places).zoom ∧
      (build_map d places).center
        = ((places.map (fun p => p.lat)).sum / places.length,
           (places.map (fun p => p.lng)).sum / places.length) := by
  refine ⟨rfl, rfl, rfl, rfl, rfl, ?_⟩
  intro places hne
  constructor
  · show (12 : Nat) < (build_map d places).zoom
    have hz : (build_map d places).zoom = 13 := by
      show (if places ≠ [] then (13 : Nat) else 12) = 13
      rw [if_pos hne]
    rw [hz]
    omega
  · show (if places ≠ [] then
        ((places.map (fun p => p.lat)).sum / places.length,
         (places.map (fun p => p.lng)).sum / places.length)
      else ((37.5665 : Rat), (126.9780 : Rat))) = _
    rw [if_pos hne]

/-- Witness for C8 at one concrete place. -/
theorem C8_witness :
    (build_map 1 []).zoom < (build_map 1 [⟨1, 1, 1, "a", 37, 127, ""⟩]).zoom ∧
    (build_map 1 [⟨1, 1, 1, "a", 37, 127, ""⟩]).center
      = ((([⟨1, 1, 1, "a", 37, 127, ""⟩] : List Place).map (fun p => p.lat)).sum
          / ([⟨1, 1, 1, "a", 37, 127, ""⟩] : List Place).length,
         (([⟨1, 1, 1, "a", 37, 127, ""⟩] : List Place).map (fun p => p.lng)).sum
          / ([⟨1, 1, 1, "a", 37, 127, ""⟩] : List Place).length) :=
  (C8_empty_map_and_centroid 1).2.2.2.2.2 [⟨1, 1, 1, "a", 37, 127, ""⟩] (by decide)

/-- C5: with the id located at index `i` of day `D`'s ordered list,
`move up` (when `i > 0`) re-fetches as the list with positions `i-1, i`
swapped and orders renumbered `1..N`, and `move down` (when
`i < N - 1`) likewise swaps positions `i, i+1`; the day's set of ids is
unchanged. -/
theorem C5_move_swaps (s : Store) (d : Int) (pid : Nat) (i : Nat)
    (hWF : (s.places.map (fun p => p.id)).Nodup)
    (hi : i < (fetch_places s d).length)
    (hid : ((fetch_places s d).get ⟨i, hi⟩).id = pid) :
    (0 < i →
      fetch_places (move_place s d pid "up") d
        = renumberList (swapAdj (fetch_places s d) (i - 1)) ∧
      List.Perm ((fetch_places (move_place s d pid "up") d).map (fun p => p.id))
        ((fetch_places s d).map (fun p => p.id)) ∧
      (fetch_places (move_place s d pid "up") d).map (fun p => p.ord)
        = List.range' 1 (fetch_places s d).length) ∧
    (i < (fetch_places s d).length - 1 →
      fetch_places (move_place s d pid "down") d
        = renumberList (swapAdj (fetch_places s d) i) ∧
      List.Perm ((fetch_places (move_place s d pid "down") d).map (fun p => p.id))
        ((fetch_places s d).map (fun p => p.id)) ∧
      (fetch_places (move_place s d pid "down") d).map (fun p => p.ord)
        = List.range' 1 (fetch_places s d).length) := by
  constructor
  · intro hpos
    have heq := move_branch_up s d pid i hWF hi hid hpos
    have hfetch := (swap_renumber_fetch s d (i - 1) hWF).1
    rw [heq]
    refine ⟨hfetch, ?_, ?_⟩
    · rw [hfetch, renumberList_map_id, swapAdj_map]
      exact swapAdj_perm _ _
    · rw [hfetch, renumberList_map_ord,
        (swapAdj_perm (fetch_places s d) (i - 1)).length_eq]
  · intro hlt
    have heq := move_branch_down s d pid i hWF hi hid hlt
    have hfetch := (swap_renumber_fetch s d i hWF).1
    rw [heq]
    refine ⟨hfetch, ?_, ?_⟩
    · rw [hfetch, renumberList_map_id, swapAdj_map]
      exact swapAdj_perm _ _
    · rw [hfetch, renumberList_map_ord,
        (swapAdj_perm (fetch_places s d) i).length_eq]

/-- Witness for C5: moving the second of two places up swaps the pair. -/
theorem C5_witness :
    fetch_places (move_place (add_place (add_place emptyStore 1 "a" 0 0 "")
        1 "b" 0 0 "") 1 2 "up") 1
      = renumberList (swapAdj (fetch_places (add_place (add_place emptyStore
          1 "a" 0 0 "") 1 "b" 0 0 "") 1) 0) ∧
    List.Perm ((fetch_places (move_place (add_place (add_place emptyStore
        1 "a" 0 0 "") 1 "b" 0 0 "") 1 2 "up") 1).map (fun p => p.id))
      ((fetch_places (add_place (add_place emptyStore 1 "a" 0 0 "")
        1 "b" 0 0 "") 1).map (fun p => p.id)) ∧
    (fetch_places (move_place (add_place (add_place emptyStore 1 "a" 0 0 "")
        1 "b" 0 0 "") 1 2 "up") 1).map (fun p => p.ord)
      = List.range' 1 (fetch_places (add_place (add_place emptyStore
          1 "a" 0 0 "") 1 "b" 0 0 "") 1).length :=
  (C5_move_swaps (add_place (add_place emptyStore 1 "a" 0 0 "") 1 "b" 0 0 "")
    1 2 1 (by decide) (by decide) (by decide)).1 (by decide)

/-- C6: moving the first place of a day up, or the last place down, is
a no-op that returns the store exactly as it was. -/
theorem C6_boundary_noop (s : Store) (d : Int)
    (hWF : (s.places.map (fun p => p.id)).Nodup)
    (hne : fetch_places s d ≠ []) :
    move_place s d ((fetch_places s d).get
      ⟨0, List.length_pos.mpr hne⟩).id "up" = s ∧
    move_place s d ((fetch_places s d).get ⟨(fetch_places s d).length - 1,
      Nat.sub_lt (List.length_pos.mpr hne) Nat.one_pos⟩).id "down" = s :=
  ⟨move_place_first_up s d _ hWF hne rfl,
   move_place_last_down s d _ hWF hne rfl⟩

/-- Witness for C6 on a concrete two-place day. -/
theorem C6_witness :
    move_place (add_place (add_place emptyStore 1 "a" 0 0 "") 1 "b" 0 0 "")
      1 1 "up" = add_place (add_place emptyStore 1 "a" 0 0 "") 1 "b" 0 0 "" ∧
    move_place (add_place (add_place emptyStore 1 "a" 0 0 "") 1 "b" 0 0 "")
      1 2 "down" = add_place (add_place emptyStore 1 "a" 0 0 "") 1 "b" 0 0 "" := by
  have h := C6_boundary_noop (add_place (add_place emptyStore 1 "a" 0 0 "")
    1 "b" 0 0 "") 1 (by decide) (by decide)
  exact ⟨h.1, h.2⟩

/-- C1 (amended): starting from the empty store, along any operation
sequence in which no delete names an id belonging to a day other than
the delete's own day argument, after every prefix of operations each
day's `ord` values form exactly the set `{1..N}` for that day's count
`N` (no gaps, no duplicates). -/
theorem C1_order_invariant (ops : List Op)
    (hsafe : ∀ (i : Nat) (h : i < ops.length),
      dayScoped (runOps (ops.take i)) (ops.get ⟨i, h⟩))
    (n : Nat) : OrdInv (runOps (ops.take n)) :=
  (runOps_take_inv ops hsafe n).2

/-- C1 fails as stated: after `add(1,a); add(1,b); delete(day 2, id 1)`
the cross-day delete removes the day-1 record with id 1 but renumbers
only day 2, leaving day 1's order set `{2}` instead of `{1}`. -/
theorem C1_counterexample :
    ¬ OrdInv (runOps ([Op.add 1 "a" 0 0 "", Op.add 1 "b" 0 0 "",
      Op.del 2 1].take 3)) := by
  intro hinv
  exact absurd (hinv 1) (by decide)

/-- Witness for C1 (amended) along a concrete three-operation run. -/
theorem C1_witness :
    OrdInv (runOps ([Op.add 1 "a" 0 0 "", Op.del 1 1,
      Op.move 1 1 "up"].take 3)) := by
  apply C1_order_invariant
  intro i h
  have h3 : i < 3 := h
  interval_cases i
  · exact trivial
  · show ∀ p ∈ (runOps ([Op.add 1 "a" 0 0 "", Op.del 1 1,
      Op.move 1 1 "up"].take 1)).places, p.id = 1 → p.day = 1
    decide
  · exact trivial
